import Mathlib

/-
  Verification development for the Exchange Execution & Position Management
  Engine of the CryptoCopyTradeBot repository (src/exchange_execution.py,
  src/models.py).

  The Python code is shallowly embedded: Python floats are modelled by exact
  rationals (ℚ), Python ints by ℤ/ℕ, fallible code by Except/Option, and every
  remote call (exchange REST response, ccxt library call) by an explicit
  environment value supplied as a parameter.  Mutable dictionaries are
  modelled as association lists, and the `try/except` structure of the source
  is reproduced faithfully: an exception swallowed by `except ...: pass` in
  the source is likewise invisible in the embedded function.
-/

namespace CryptoBot

/-! ## Python-primitive helpers -/

/-- Truthiness of an optional float, as Python evaluates `if x:`:
`None` and `0.0` are falsy. -/
def truthyQ : Option ℚ → Bool
  | some q => q != 0
  | none => false

/-- Python `int(x)` on a float: truncation toward zero. -/
def pyTrunc (x : ℚ) : ℤ :=
  if x < 0 then -(⌊-x⌋) else ⌊x⌋

/-- Python `float(format(x, '.pf'))`: rounding to `p` decimal places with
round-half-to-even tie breaking (the model works on the exact rational value;
binary floating-point representation error is out of scope). -/
def pyRoundPrec (p : ℕ) (x : ℚ) : ℚ :=
  let m : ℚ := (10 : ℚ) ^ p
  let y := x * m
  let fl : ℤ := ⌊y⌋
  let fr : ℚ := y - fl
  let n : ℤ :=
    if fr < 1/2 then fl
    else if 1/2 < fr then fl + 1
    else if fl % 2 = 0 then fl else fl + 1
  (n : ℚ) / m

/-! ## Market metadata (MarketInfo) and conversion environment -/

/-- The fields of `MarketInfo` used by sizing and order creation
(src/exchange_execution.py, class MarketInfo).  `amountPrecision = 0`
signals an integer-contract market. -/
structure MarketL where
  amountPrecision : ℕ
  contractSize : ℚ
  minAmount : ℚ
  lastPrice : Option ℚ
  deriving DecidableEq

/-- `get_market_leverage_info` (lines 804-824): the remote
`fetchMarketLeverageTiers` either yields a list of tiers (modelled by their
`maxLeverage` fields) or fails; the first tier's maxLeverage is reported,
with 1 on an empty/absent result or an exception. -/
def getMaxLeverageFromTiers : Option (List ℕ) → ℕ
  | some (t :: _) => t
  | _ => 1

deriving instance DecidableEq for Except

/-- Environment for one call of `convert_amount_to_contracts`: the outcome of
`get_market_info`, of `get_market_leverage_info` (the raw tier fetch), and of
the two fallback re-fetches (`ctVal`, `minSz`) used inside the integer-contract
branch. -/
structure ConvertEnv where
  marketInfo : Option MarketL
  tiers : Option (List ℕ)
  ctValFetch : Except String ℚ
  minSzFetch : Except String ℚ
  deriving DecidableEq

/-- The conversion trace dictionary returned alongside the quantity
(lines 930-937). -/
structure ConvTrace where
  rawQuantity : ℚ
  formattedQuantity : ℚ
  initialMargin : ℚ
  notionalValue : ℚ
  price : ℚ
  leverage : ℕ
  deriving DecidableEq

/-- `ExchangeClient.convert_amount_to_contracts` (lines 856-941).

Integer-contract branch (amount_precision == 0):
  contracts_raw = (usdt_amount * actual_leverage) / (price * ct);
  formatted_quantity = max(1, floor(contracts_raw));
  then, inside a `try ... except Exception: pass` block, the quantity is
  bumped up to the exchange minimum when below it (a failed `minSz` re-fetch
  silently skips the bump);
  notional and initial margin are computed from the bumped quantity.

Divisible branch:
  notional = usdt_amount * actual_leverage; quantity = notional / price,
  formatted via `_format_amount` (decimal rounding to amount_precision);
  NOTE: the `raise OrderException(... below exchange min amount ...)` at
  line 908 sits inside `try: ... except Exception: pass` (lines 905-910),
  so the below-minimum error is swallowed and the function proceeds -
  the embedded function therefore has no error case here.

A Python `ZeroDivisionError` (zero price/contract size/leverage) propagates
out of the function (outer `except ... raise`), hence the explicit `.error`
cases. -/
def convert_amount_to_contracts (env : ConvertEnv) (usdt price : ℚ)
    (leverage : ℕ) : Except String (ℚ × ConvTrace) :=
  match env.marketInfo with
  | none => .error "Cannot get market info"
  | some mi =>
    let actualLev : ℕ := min leverage (getMaxLeverageFromTiers env.tiers)
    if mi.amountPrecision = 0 then
      -- integer-contract market
      let ct : ℚ :=
        if mi.contractSize ≤ 0 then
          match env.ctValFetch with
          | .ok v => if v = 0 then 1 else v
          | .error _ => 1
        else mi.contractSize
      if price * ct = 0 then .error "ZeroDivisionError"
      else
        let raw : ℚ := usdt * (actualLev : ℚ) / (price * ct)
        let q0 : ℤ := max 1 ⌊raw⌋
        let q1 : ℤ :=
          match (if mi.minAmount ≠ 0 then Except.ok mi.minAmount
                 else env.minSzFetch) with
          | .error _ => q0          -- re-fetch raised: whole bump block skipped
          | .ok mq => if mq ≠ 0 ∧ (q0 : ℚ) < mq then max 1 ⌊mq⌋ else q0
        if actualLev = 0 then .error "ZeroDivisionError"
        else
          let notional : ℚ := (q1 : ℚ) * price * ct
          let margin : ℚ := notional / (actualLev : ℚ)
          .ok ((q1 : ℚ), ⟨raw, (q1 : ℚ), margin, notional, price, actualLev⟩)
    else
      -- divisible market
      if price = 0 then .error "ZeroDivisionError"
      else
        let notional0 : ℚ := usdt * (actualLev : ℚ)
        let qty : ℚ := notional0 / price
        let fq : ℚ := pyRoundPrec mi.amountPrecision qty
        -- the below-minimum check raises inside `try/except Exception: pass`
        -- and therefore has no effect (lines 905-910)
        if actualLev = 0 then .error "ZeroDivisionError"
        else
          let margin : ℚ := fq * price / (actualLev : ℚ)
          .ok (fq, ⟨qty, fq, margin, fq * price, price, actualLev⟩)

/-! ## set_leverage -/

/-- `ExchangeClient.set_leverage` (lines 826-855).  `tiers` is the outcome of
the remote `fetchMarketLeverageTiers` call inside `get_market_leverage_info`;
`setMarginModeR`/`setLeverageR` are the outcomes of the two remote calls made
on the non-OKX path (either may raise, and the raised error propagates:
the outer handler re-raises).  On the OKX path the function returns the
clamped leverage without any remote call. -/
def set_leverage (isOKX : Bool) (tiers : Option (List ℕ)) (requested : ℕ)
    (setMarginModeR setLeverageR : Except String Unit) : Except String ℕ :=
  let maxLev := getMaxLeverageFromTiers tiers
  let actual := min requested maxLev
  if isOKX then .ok actual
  else
    match setMarginModeR with
    | .error e => .error e
    | .ok _ =>
      match setLeverageR with
      | .error e => .error e
      | .ok _ => .ok actual

/-! ## PositionInfo and get_positions -/

inductive SideL where
  | long
  | short
  deriving DecidableEq

inductive MarginL where
  | cross
  | isolated
  deriving DecidableEq

/-- The fields of `PositionInfo` relevant to the claims (class PositionInfo,
lines 188-293; the remaining float fields of the dataclass are converted the
same way as the ones kept here and play no role in any claim). -/
structure PositionL where
  symbol : String
  side : SideL
  size : ℚ
  entryPrice : ℚ
  marginMode : MarginL
  leverage : ℤ
  markPrice : ℚ
  unrealizedPnl : ℚ
  notional : ℚ
  deriving DecidableEq

/-- A raw exchange position dictionary, restricted to the keys the code
reads.  A missing or null numeric key is modelled as 0, matching the
`float(pos.get(k, 0) or 0)` idiom of the source. -/
structure RawPos where
  symbol : String
  side : String
  marginMode : String
  contracts : ℚ
  positionAmt : ℚ
  entryPrice : ℚ
  leverage : ℚ
  markPrice : ℚ
  unrealizedPnl : ℚ
  notional : ℚ
  deriving DecidableEq

/-- `PositionInfo.from_exchange_position` (lines 225-277): the position
amount is `contracts or positionAmt or 0` (first nonzero), a zero amount
yields `None`, size is the absolute amount, and side/margin mode default to
SHORT/CROSS unless the strings match exactly. -/
def from_exchange_position (pos : RawPos) : Option PositionL :=
  let amt : ℚ := if pos.contracts ≠ 0 then pos.contracts else pos.positionAmt
  if amt = 0 then none
  else some
    { symbol := pos.symbol
      side := if pos.side = "long" then .long else .short
      size := |amt|
      entryPrice := pos.entryPrice
      marginMode := if pos.marginMode = "isolated" then .isolated else .cross
      leverage := pyTrunc (if pos.leverage = 0 then 1 else pos.leverage)
      markPrice := pos.markPrice
      unrealizedPnl := pos.unrealizedPnl
      notional := pos.notional }

/-- The conversion loop of `get_positions` (lines 696-703): keep only raw
entries whose `contracts` field is nonzero, then convert each, dropping any
that convert to `None`. -/
def fetchConvert (raws : List RawPos) : List PositionL :=
  raws.filterMap (fun pos =>
    if pos.contracts ≠ 0 then from_exchange_position pos else none)

/-- A value stored in `self._position_cache`: per-symbol keys hold a single
`PositionInfo`, while the key 'all' holds a whole list (lines 702 and 706).
The Python dictionary is heterogeneous; the embedding tags the two shapes. -/
inductive CacheEntry where
  | pos (p : PositionL)
  | all (l : List PositionL)
  deriving DecidableEq

/-- Whether an element of the returned list is a flat `PositionInfo` record
(as the annotated return type `List[PositionInfo]` promises). -/
def CacheEntry.isFlatPos : CacheEntry → Bool
  | .pos _ => true
  | .all _ => false

/-- The position cache of one `ExchangeClient` (dictionaries
`_position_cache` and `_position_cache_time`); newer bindings shadow older
ones, modelling `dict` update by prepending. -/
structure ClientState where
  posCache : List (String × CacheEntry)
  posCacheTime : List (String × ℚ)
  deriving DecidableEq

/-- `ExchangeClient.get_positions` (lines 679-713).  `now` is the value of
`time.time()`, `fetched` the raw list the exchange would return.  On a cache
hit within the 5-second TTL, the code returns `[self._position_cache[key]]` -
note that for the key 'all' this wraps the cached *list* in another list.
On a miss it fetches, converts, stores each position under its symbol and
(for a symbol-less call) the whole list under 'all'. -/
def get_positions_c (st : ClientState) (symbol : Option String) (now : ℚ)
    (fetched : List RawPos) : List CacheEntry × ClientState :=
  let key : String := match symbol with
    | some s => if s = "" then "all" else s   -- `cache_key = symbol or 'all'`
    | none => "all"
  let hit : Option CacheEntry := match st.posCache.lookup key with
    | some e =>
      if now - ((st.posCacheTime.lookup key).getD 0) < 5 then some e else none
    | none => none
  match hit with
  | some e => ([e], st)
  | none =>
    let result := fetchConvert fetched
    let cache1 := result.foldl
      (fun c p => (p.symbol, CacheEntry.pos p) :: c) st.posCache
    let time1 := result.foldl
      (fun c p => (p.symbol, now) :: c) st.posCacheTime
    match symbol with
    | none =>
      (result.map CacheEntry.pos,
        ⟨("all", CacheEntry.all result) :: cache1, ("all", now) :: time1⟩)
    | some _ => (result.map CacheEntry.pos, ⟨cache1, time1⟩)

/-! ## OrderParams and create_order -/

/-- `OrderParams` (lines 76-104), restricted to the fields that drive control
flow.  The free-form `extra_params` dictionary only contributes extra keys to
the outgoing request body and is omitted. -/
structure OrderParamsL where
  symbol : String
  side : String
  orderType : String
  amount : ℚ
  price : Option ℚ
  stopPrice : Option ℚ
  reduceOnly : Bool
  leverage : Option ℕ
  marginMode : String
  deriving DecidableEq

/-- `OrderParams.validate` (lines 89-104): `all([symbol, side, order_type,
amount > 0])` with Python truthiness, a LIMIT order needs a truthy price, a
STOP or TAKE_PROFIT order needs a truthy stop price. -/
def OrderParamsL.validate (o : OrderParamsL) : Bool :=
  if ¬(o.symbol ≠ "" ∧ o.side ≠ "" ∧ o.orderType ≠ "" ∧ 0 < o.amount) then
    false
  else if o.orderType = "LIMIT" ∧ truthyQ o.price = false then false
  else if (o.orderType = "STOP" ∨ o.orderType = "TAKE_PROFIT")
      ∧ truthyQ o.stopPrice = false then false
  else true

/-- One raw OKX order response (`/api/v5/trade/order`): outer `code`, the
`sCode` of `data[0]`, and the fields read from `data[0]` on success. -/
structure OkxResp where
  code : String
  sCode : String
  ordId : Option String
  px : ℚ
  deriving DecidableEq

/-- A ccxt `createOrder` response on the non-OKX path. -/
structure CcxtResp where
  id : String
  price : ℚ
  deriving DecidableEq

/-- `OrderResult` (src/models.py, lines 151-170), with the always-present
fields inlined (`extra_info` omitted). -/
structure OrderResultL where
  success : Bool
  orderId : Option String
  executedPrice : ℚ
  executedAmount : ℚ
  errorMessage : String
  deriving DecidableEq

/-- Environment for one `create_order` call: every remote interaction the
call can make, as data.  `okxPriceLimit` is the (max_buy, min_sell) pair of
the OKX price-limit endpoint (None when the fetch fails). -/
structure CreateOrderEnv where
  conv : ConvertEnv
  levTiers : Option (List ℕ)
  setMarginModeR : Except String Unit
  setLeverageR : Except String Unit
  isOKX : Bool
  okxPriceLimit : Option (Option ℚ × Option ℚ)
  okxResp1 : OkxResp
  okxResp2 : OkxResp
  okxResp3 : OkxResp
  ccxtResp : Except String CcxtResp
  deriving DecidableEq

/-- Build the successful `OrderResult` from an OKX response (lines
1088-1105): `order_id = result.get('ordId') or result.get('id')`,
`executed_price = float(result.get('px', 0) or use_price)`. -/
def mkOkxResult (r : OkxResp) (usePrice quantity : ℚ) : OrderResultL :=
  { success := true
    orderId := r.ordId
    executedPrice := if r.px ≠ 0 then r.px else usePrice
    executedAmount := quantity
    errorMessage := "" }

/-- The `price_arg` computation of `create_order` (lines 980-991):
`_format_price` returns the price unchanged (lines 1135-1150), and on OKX a
limit price is clamped to the exchange price limits fetched from the
price-limit endpoint. -/
def limit_price_arg (env : CreateOrderEnv) (o : OrderParamsL) : Option ℚ :=
  if o.orderType = "LIMIT" then
    match o.price with
    | none => none
    | some p =>
      if env.isOKX then
        match env.okxPriceLimit with
        | some (maxBuy, minSell) =>
          if o.side = "buy" then
            match maxBuy with
            | some mb => some (if mb < p then mb else p)
            | none => some p
          else
            match minSell with
            | some ms => some (if p < ms then ms else p)
            | none => some p
        | none => some p
      else some p
  else none

/-- `ExchangeClient.create_order` (lines 943-1109).  A LIMIT order without a
truthy price is downgraded to MARKET; invalid parameters raise; missing
market info or a falsy last price raises; leverage is set via `set_leverage`
(whose failure propagates); the USDT amount is converted to contracts; on
OKX the order goes through the signed endpoint with a one-level fallback
chain keyed on sCode 51010, otherwise through ccxt.  The only successful
return site builds an OrderResult with `success=True`; every failure path
raises (the outer `except` logs and re-raises). -/
def create_order (env : CreateOrderEnv) (o0 : OrderParamsL) :
    Except String OrderResultL :=
  -- LIMIT order with no price: switched to MARKET (lines 946-948)
  let o := if o0.orderType = "LIMIT" ∧ truthyQ o0.price = false then
      { o0 with orderType := "MARKET" } else o0
  if o.validate = false then .error "Invalid order parameters"
  else
    match env.conv.marketInfo with
    | none => .error "Cannot get market info"
    | some mi =>
      if truthyQ mi.lastPrice = false then .error "Cannot get market info"
      else
        let usePrice : ℚ :=
          if o.orderType = "LIMIT" ∧ truthyQ o.price then (o.price.getD 0)
          else mi.lastPrice.getD 0
        let lev : ℕ := match o.leverage with     -- `order.leverage or 50`
          | some l => if l ≠ 0 then l else 50
          | none => 50
        match set_leverage env.isOKX env.levTiers lev
            env.setMarginModeR env.setLeverageR with
        | .error e => .error e
        | .ok actualLev =>
          match convert_amount_to_contracts env.conv o.amount usePrice
              actualLev with
          | .error e => .error e
          | .ok (quantity, _conv) =>
            -- price_arg (computed by `limit_price_arg` below) only populates
            -- the outgoing request body; the response is environment data,
            -- so it does not influence the returned OrderResult
            let _priceArg := limit_price_arg env o
            if env.isOKX then
              let r1 := env.okxResp1
              if r1.code ≠ "0" then
                if r1.sCode = "51010" then
                  let r2 := env.okxResp2
                  if r2.code = "0" then .ok (mkOkxResult r2 usePrice quantity)
                  else
                    let r3 := env.okxResp3
                    if r3.code = "0" then
                      .ok (mkOkxResult r3 usePrice quantity)
                    else .error "OKX order rejected"
                else .error "OKX order rejected"
              else .ok (mkOkxResult r1 usePrice quantity)
            else
              match env.ccxtResp with
              | .error e => .error e
              | .ok res =>
                .ok { success := true
                      orderId := some res.id
                      executedPrice := if res.price ≠ 0 then res.price
                                       else usePrice
                      executedAmount := quantity
                      errorMessage := "" }

/-! ## TradingSignal and execute_signal -/

/-- `EntryZone` (src/models.py): price and fraction of the total size.  The
mutable `order_id`/`status` fields are bookkeeping on success only. -/
structure ZoneL where
  price : ℚ
  percentage : ℚ
  deriving DecidableEq

/-- `TakeProfitLevel` (src/models.py): price, fraction, and the persistent
hit flag toggled by the monitor. -/
structure TPLevel where
  price : ℚ
  percentage : ℚ
  isHit : Bool
  deriving DecidableEq

/-- `TradingSignal` (src/models.py), restricted to the fields the execution
engine reads. -/
structure SignalL where
  symbol : String
  action : String
  entryPrice : Option ℚ
  positionSize : ℚ
  leverage : ℕ
  marginMode : String
  stopLoss : Option ℚ
  takeProfitLevels : List TPLevel
  entryZones : List ZoneL
  dynamicSL : Bool
  deriving DecidableEq

/-- The `OrderParams` built for the single-entry path of `execute_signal`
(lines 1566-1575): BUY for OPEN_LONG, MARKET when the entry price is falsy,
otherwise LIMIT at the entry price. -/
def single_entry_params (sig : SignalL) : OrderParamsL :=
  { symbol := sig.symbol
    side := if sig.action = "OPEN_LONG" then "buy" else "sell"
    orderType := if truthyQ sig.entryPrice then "LIMIT" else "MARKET"
    amount := sig.positionSize
    price := sig.entryPrice
    stopPrice := none
    reduceOnly := false
    leverage := some sig.leverage
    marginMode := sig.marginMode }

/-- The `OrderParams` built for one entry zone (lines 1514-1523): a LIMIT
order at the zone price for `total_size * zone.percentage` USDT. -/
def zone_params (sig : SignalL) (zone : ZoneL) : OrderParamsL :=
  { symbol := sig.symbol
    side := if sig.action = "OPEN_LONG" then "buy" else "sell"
    orderType := "LIMIT"
    amount := sig.positionSize * zone.percentage
    price := some zone.price
    stopPrice := none
    reduceOnly := false
    leverage := some sig.leverage
    marginMode := sig.marginMode }

/-- The single-entry path of `ExchangeManager.execute_signal` (lines
1564-1610): the order is created and returned; a raised error is caught by
the outer handler which converts it into a failed `OrderResult` (line 1610).
The subsequent `attach_tp_sl` attempt sits in its own `try/except` and never
changes the returned result. -/
def execute_signal_single (env : CreateOrderEnv) (sig : SignalL) :
    OrderResultL :=
  match create_order env (single_entry_params sig) with
  | .ok r => r
  | .error e =>
    { success := false, orderId := none, executedPrice := 0
      executedAmount := 0, errorMessage := e }

/-- The zone loop of `execute_signal` (lines 1499-1563).  `envs i` is the
environment of the `create_order` call for the i-th zone.  The loop body
calls `create_order` WITHOUT a per-zone `try`: since `create_order` raises on
every failure, a failing zone aborts the loop and the exception reaches the
outer handler of `execute_signal`, which returns a failed OrderResult (the
`else` branch logging "Failed to create order for zone" at lines 1556-1557
is unreachable).  The second component counts the zones whose order placement
was attempted. -/
def execute_signal_zones_go (envs : ℕ → CreateOrderEnv) (sig : SignalL) :
    List ZoneL → ℕ → List OrderResultL → OrderResultL × ℕ
  | [], i, results =>
    -- `return results[0] if results else OrderResult(success=False, ...)`
    (results.headD
      { success := false, orderId := none, executedPrice := 0
        executedAmount := 0, errorMessage := "No orders created" }, i)
  | zone :: rest, i, results =>
    match create_order (envs i) (zone_params sig zone) with
    | .error e =>
      -- the exception propagates to the outer handler (line 1610)
      ({ success := false, orderId := none, executedPrice := 0
         executedAmount := 0, errorMessage := e }, i + 1)
    | .ok r => execute_signal_zones_go envs sig rest (i + 1) (results ++ [r])

/-- The entry-zones path of `ExchangeManager.execute_signal`. -/
def execute_signal_zones (envs : ℕ → CreateOrderEnv) (sig : SignalL) :
    OrderResultL × ℕ :=
  execute_signal_zones_go envs sig sig.entryZones 0 []

/-! ## Position monitor: dynamic stop loss -/

/-- `ExchangeManager._check_dynamic_stop_loss` (lines 1915-1962) as a pure
function of one monitor iteration.  Returns the stop-loss applied through
`modify_position` this iteration, or `none` when nothing is applied.
`stopLoss` is `signal.stop_loss`, which this function never reassigns (no
write to it exists in the class), so consecutive iterations all compare
against the same value.  When `signal.stop_loss` is `None` the comparison
`new_sl > None` raises a TypeError which the surrounding handler swallows. -/
def check_dynamic_stop_loss (action : String) (dynamicSL : Bool)
    (stopLoss : Option ℚ) (positionSize entryPrice currentPrice : ℚ) :
    Option ℚ :=
  if positionSize = 0 then none
  else if dynamicSL = false then none
  else if action = "OPEN_LONG" then
    if entryPrice < currentPrice then
      let newSL := entryPrice + (currentPrice - entryPrice) * (1/2)
      match stopLoss with
      | some sl => if sl < newSL then some newSL else none
      | none => none
    else none
  else  -- the `else` arm of the source covers every non-OPEN_LONG action
    if currentPrice < entryPrice then
      let newSL := entryPrice - (entryPrice - currentPrice) * (1/2)
      match stopLoss with
      | some sl => if newSL < sl then some newSL else none
      | none => none
    else none

/-- The stop-loss values applied over a sequence of monitor iterations with
mark prices `prices` (one fetch per iteration; `signal.stop_loss`, the
position size and the entry price are un-reassigned across iterations). -/
def applied_stop_losses (action : String) (dynamicSL : Bool)
    (stopLoss : Option ℚ) (positionSize entryPrice : ℚ)
    (prices : List ℚ) : List ℚ :=
  prices.filterMap
    (check_dynamic_stop_loss action dynamicSL stopLoss positionSize entryPrice)

/-! ## Position monitor: take-profit ladder -/

/-- `ExchangeManager._check_take_profit_levels` (lines 1612-1662) as a pure
function of one monitor iteration.  The levels are scanned in order; a level
already hit is skipped; an unhit level fires when the current price crosses
it in the instruction's direction; the close amount is
`position.size * tp_level.percentage` where `position.size` is the size
fetched THIS iteration.  `ordersOk i` tells whether the `create_order` call
for the level at index `i` returns normally (it then returns success=True and
the hit flag is set) or raises - a raise is caught by the handler wrapping
the whole function, so the remaining levels of this iteration are skipped.
Returns the amounts of the close orders issued and the updated levels. -/
def check_take_profit_levels (action : String) (currentPrice posSize : ℚ)
    (ordersOk : ℕ → Bool) :
    List TPLevel → ℕ → List ℚ × List TPLevel
  | [], _ => ([], [])
  | l :: rest, i =>
    if l.isHit then
      let (amts, ls) := check_take_profit_levels action currentPrice posSize
        ordersOk rest (i + 1)
      (amts, l :: ls)
    else if (action = "OPEN_LONG" ∧ l.price ≤ currentPrice)
        ∨ (action = "OPEN_SHORT" ∧ currentPrice ≤ l.price) then
      if ordersOk i then
        let (amts, ls) := check_take_profit_levels action currentPrice posSize
          ordersOk rest (i + 1)
        (posSize * l.percentage :: amts, { l with isHit := true } :: ls)
      else
        -- create_order raised: outer handler aborts this iteration
        ([], l :: rest)
    else
      let (amts, ls) := check_take_profit_levels action currentPrice posSize
        ordersOk rest (i + 1)
      (amts, l :: ls)

/-- Two consecutive monitor iterations over the same signal
(`monitor_positions`, lines 2036-2063): each iteration re-fetches the
position (sizes `size1`, `size2`) and runs the ladder check at the current
mark price; the mutated level list persists on the signal between
iterations.  Returns the close amounts of both iterations and the final
levels. -/
def two_tp_iterations (action : String) (levels : List TPLevel)
    (price1 price2 size1 size2 : ℚ) (ok1 ok2 : ℕ → Bool) :
    List ℚ × List ℚ × List TPLevel :=
  let r1 := check_take_profit_levels action price1 size1 ok1 levels 0
  let r2 := check_take_profit_levels action price2 size2 ok2 r1.2 0
  (r1.1, r2.1, r2.2)

/-! ## Symbol normalization

`ExchangeClient._normalize_symbol` (lines 431-448) works on strings; the
embedding works on lists of code points (ℕ), with Python `str.upper`
restricted to ASCII letters and `str.strip` to ASCII whitespace.  Code
points used: '/' = 47, '-' = 45, ':' = 58, 'U' = 85, 'S' = 83, 'D' = 68,
'T' = 84. -/

/-- Python whitespace (the ASCII part), as stripped by `str.strip()`. -/
def pyIsSpace (n : ℕ) : Bool :=
  n = 32 || n = 9 || n = 10 || n = 11 || n = 12 || n = 13

/-- `str.upper()` on one ASCII code point. -/
def pyUpperCh (n : ℕ) : ℕ :=
  if 97 ≤ n ∧ n ≤ 122 then n - 32 else n

/-- `str.upper()` over the whole string. -/
def pyUpper (l : List ℕ) : List ℕ := l.map pyUpperCh

/-- `str.strip()`: drop whitespace from both ends. -/
def pyStrip (l : List ℕ) : List ℕ :=
  ((l.dropWhile pyIsSpace).reverse.dropWhile pyIsSpace).reverse

/-- Python `s.split(sep)` for a one-character separator: no collapsing of
empty segments, and `''.split(sep) = ['']`. -/
def pySplit (sep : ℕ) : List ℕ → List (List ℕ)
  | [] => [[]]
  | c :: rest =>
    if c = sep then [] :: pySplit sep rest
    else
      match pySplit sep rest with
      | [] => [[c]]            -- unreachable: pySplit never returns []
      | p :: ps => (c :: p) :: ps

/-- Python `s.replace("USDT", "")`: left-to-right removal of every
non-overlapping occurrence of the code points 85,83,68,84. -/
def removeUSDT : List ℕ → List ℕ
  | 85 :: 83 :: 68 :: 84 :: rest => removeUSDT rest
  | c :: rest => c :: removeUSDT rest
  | [] => []

/-- Boolean list-prefix test on code points. -/
def isPrefN : List ℕ → List ℕ → Bool
  | [], _ => true
  | _ :: _, [] => false
  | a :: as, b :: bs => a = b && isPrefN as bs

/-- Python `pat in s` (substring test). -/
def hasInfixN (pat : List ℕ) : List ℕ → Bool
  | [] => isPrefN pat []
  | c :: rest => isPrefN pat (c :: rest) || hasInfixN pat rest

/-- The code points of "USDT". -/
def usdtL : List ℕ := [85, 83, 68, 84]

/-- The code points of ":USDT". -/
def colonUsdtL : List ℕ := [58, 85, 83, 68, 84]

/-- `ExchangeClient._normalize_symbol` (lines 431-448).  The unguarded
Python indexings `s.split("/")[0]` / `s.split("/")[1]` are modelled with
`List.get?` so that an out-of-range access would surface as `none`
(an IndexError in Python); totality of the function is the statement that
the result is always `some`. -/
def normalize_symbol (isOKX : Bool) (symbol : List ℕ) : Option (List ℕ) :=
  let s := pyStrip (pyUpper symbol)
  if s = [] then some s
  else if 47 ∈ s ∧ hasInfixN colonUsdtL s = true then some s
  else
    let bq : Option (List ℕ × List ℕ) :=
      if 47 ∈ s then
        match (pySplit 47 s).get? 0, (pySplit 47 s).get? 1 with
        | some b, some q => some (b, q)
        | _, _ => none
      else if 45 ∈ s then
        match (pySplit 45 s).get? 0 with
        | some b =>
          some (b, if 1 < (pySplit 45 s).length
                   then (pySplit 45 s).getD 1 [] else usdtL)
        | none => none
      else some (removeUSDT s, usdtL)
    match bq with
    | none => none
    | some (b, q) =>
      some (if isOKX then b ++ 47 :: (q ++ colonUsdtL) else b ++ 47 :: q)

/-! ## Concrete instances used by the theorems -/

/-- An integer-contract market as in the spec scenario: amount precision 0,
contract size 0.01, exchange minimum 1 contract, last price 50000. -/
def envIC : ConvertEnv :=
  { marketInfo := some ⟨0, 1/100, 1, some 50000⟩
    tiers := some [125]
    ctValFetch := .ok 1
    minSzFetch := .ok 1 }

/-- A divisible market with amount precision 3 and exchange minimum 1. -/
def envDiv : ConvertEnv :=
  { marketInfo := some ⟨3, 1, 1, some 100⟩
    tiers := some [100]
    ctValFetch := .ok 0
    minSzFetch := .ok 0 }

/-- A `create_order` environment in which every remote interaction succeeds
(non-OKX path, divisible market with no exchange minimum). -/
def envOrderOk : CreateOrderEnv :=
  { conv := { marketInfo := some ⟨3, 1, 0, some 100⟩
              tiers := some [100]
              ctValFetch := .ok 0
              minSzFetch := .ok 0 }
    levTiers := some [100]
    setMarginModeR := .ok ()
    setLeverageR := .ok ()
    isOKX := false
    okxPriceLimit := none
    okxResp1 := ⟨"0", "", some "oid", 0⟩
    okxResp2 := ⟨"0", "", some "oid", 0⟩
    okxResp3 := ⟨"0", "", some "oid", 0⟩
    ccxtResp := .ok ⟨"oid", 100⟩ }

/-- A `create_order` environment whose market-info lookup fails. -/
def envOrderNoMarket : CreateOrderEnv :=
  { envOrderOk with
    conv := { marketInfo := none
              tiers := some [100]
              ctValFetch := .ok 0
              minSzFetch := .ok 0 } }

/-- A two-zone signal whose first zone carries fraction 0 (so its order
amount is 0 and `create_order` raises on validation). -/
def sigTwoZones : SignalL :=
  { symbol := "BTC/USDT"
    action := "OPEN_LONG"
    entryPrice := none
    positionSize := 200
    leverage := 10
    marginMode := "cross"
    stopLoss := none
    takeProfitLevels := []
    entryZones := [⟨100, 0⟩, ⟨95, 1/2⟩]
    dynamicSL := false }

/-- A market-order signal with no entry zones. -/
def sigSingle : SignalL :=
  { symbol := "BTC/USDT"
    action := "OPEN_LONG"
    entryPrice := none
    positionSize := 100
    leverage := 10
    marginMode := "cross"
    stopLoss := none
    takeProfitLevels := []
    entryZones := []
    dynamicSL := false }

/-- A raw exchange position with 2 contracts, long side, cross margin. -/
def rawBTC : RawPos :=
  ⟨"BTC/USDT", "long", "cross", 2, 0, 100, 10, 100, 0, 200⟩

/-- The `PositionInfo` that `from_exchange_position` produces for `rawBTC`. -/
def posBTC : PositionL :=
  ⟨"BTC/USDT", .long, 2, 100, .cross, 10, 100, 0, 200⟩

/-!
# Theorems
-/

/-! ### C2 - divisible market, below-minimum quantity (code bug) -/

/-- C2: on a divisible market (amount precision 3) with exchange minimum 1,
converting 1 USDT at leverage 1 and price 100 yields quantity 0.01, which is
below the positive minimum - yet `convert_amount_to_contracts` returns it
successfully instead of failing: the `raise OrderException` at line 908 is
swallowed by the enclosing `except Exception: pass` (lines 905-910). -/
theorem convert_below_min_returns_ok :
    convert_amount_to_contracts envDiv 1 100 1 =
      .ok (1/100, ⟨1/100, 1/100, 1, 1, 100, 1⟩) ∧
    ((1 : ℚ)/100) < 1 ∧ (0 : ℚ) < 1 := by
  refine ⟨?_, by norm_num, by norm_num⟩
  simp only [convert_amount_to_contracts, envDiv, getMaxLeverageFromTiers, pyRoundPrec]
  norm_num

/-! ### C4 - dynamic stop loss can loosen (code bug) -/

/-- C4: with dynamic stop-loss enabled for a long instruction (entry 100,
`signal.stop_loss` = 90), monitor iterations at mark prices 110 and then 102
apply stop-losses 105 and then 101: the second applied stop is LOWER
(looser for a long) than the first, because `_check_dynamic_stop_loss`
compares each candidate only against the never-updated `signal.stop_loss`
(lines 1944 and 1954), not against the previously applied stop. -/
theorem dynamic_stop_loss_can_loosen :
    applied_stop_losses "OPEN_LONG" true (some 90) 1 100 [110, 102]
      = [105, 101] ∧ (101 : ℚ) < 105 := by
  refine ⟨?_, by norm_num⟩
  simp only [applied_stop_losses, check_dynamic_stop_loss, List.filterMap]
  norm_num

/-! ### C5 - a failing zone aborts the remaining zones (code bug) -/

/-- C5: executing a signal with two entry zones where the first zone's order
placement raises (here: zone fraction 0, so the order amount is 0 and
validation fails) attempts only 1 of the 2 zones: the exception from
`create_order` propagates out of the zone loop (lines 1503-1557 contain no
per-zone `try`) to the outer handler, so the second zone - whose own
placement would have succeeded - is never attempted. -/
theorem zone_failure_aborts_remaining_zones :
    execute_signal_zones (fun _ => envOrderOk) sigTwoZones =
      ({ success := false, orderId := none, executedPrice := 0
         executedAmount := 0, errorMessage := "Invalid order parameters" }, 1) ∧
    sigTwoZones.entryZones.length = 2 ∧
    (create_order envOrderOk (zone_params sigTwoZones ⟨95, 1/2⟩)).isOk = true := by
  refine ⟨?_, by simp [sigTwoZones], ?_⟩
  · simp only [execute_signal_zones, execute_signal_zones_go, sigTwoZones, zone_params,
      create_order, OrderParamsL.validate, truthyQ, envOrderOk, set_leverage,
      convert_amount_to_contracts, getMaxLeverageFromTiers, pyRoundPrec, mkOkxResult]
    norm_num
  · simp only [execute_signal_zones_go, sigTwoZones, zone_params,
      create_order, OrderParamsL.validate, truthyQ, envOrderOk, set_leverage,
      convert_amount_to_contracts, getMaxLeverageFromTiers, pyRoundPrec, mkOkxResult]
    norm_num
    decide

/-! ### C10 - cached 'all' entry returned wrapped in a list (code bug) -/

/-- C10: a first symbol-less `get_positions` call (cache miss) returns a flat
list of `PositionInfo`, but a second symbol-less call 3 seconds later hits
the 5-second cache and returns `[self._position_cache['all']]` - the cached
LIST wrapped inside another list (line 687), whose sole element is not a
`PositionInfo` record, contradicting the declared return type
`List[PositionInfo]`. -/
theorem cached_all_positions_wrapped :
    (get_positions_c ⟨[], []⟩ none 0 [rawBTC]).1 = [CacheEntry.pos posBTC] ∧
    (get_positions_c ((get_positions_c ⟨[], []⟩ none 0 [rawBTC]).2)
        none 3 [rawBTC]).1 = [CacheEntry.all [posBTC]] ∧
    CacheEntry.isFlatPos (CacheEntry.all [posBTC]) = false := by
  refine ⟨?_, ?_, rfl⟩
  · simp only [get_positions_c, rawBTC, posBTC, fetchConvert, from_exchange_position,
      List.lookup, List.filterMap, List.foldl, pyTrunc]
    norm_num
    decide
  · simp only [get_positions_c, rawBTC, posBTC, fetchConvert, from_exchange_position,
      List.lookup, List.filterMap, List.foldl, pyTrunc]
    norm_num
    decide

/-! ### C6 - second take-profit close sized from the current, not the
original, position size (counterexample) -/

/-- C6 counterexample: a long instruction with TP levels (100, 1/2),
(110, 1/4), (120, 1/4) and original position size 10; the mark price crosses
level 1 at 105 and level 2 at 115 in two consecutive iterations, with the
second fetch seeing size 5 (the original 10 reduced by the first partial
close of 5).  Exactly two closes fire, but the second is sized
5 * 1/4 = 5/4 from the CURRENT size (line 1643:
`close_amount = position.size * tp_level.percentage`), not
10 * 1/4 = 5/2 from the original size as the claim states. -/
theorem tp_second_close_not_original_size :
    two_tp_iterations "OPEN_LONG"
        [⟨100, 1/2, false⟩, ⟨110, 1/4, false⟩, ⟨120, 1/4, false⟩]
        105 115 10 5 (fun _ => true) (fun _ => true) =
      ([5], [5/4],
        [⟨100, 1/2, true⟩, ⟨110, 1/4, true⟩, ⟨120, 1/4, false⟩]) ∧
    ((5 : ℚ)/4) ≠ (1/4) * 10 := by
  refine ⟨?_, by norm_num⟩
  simp only [two_tp_iterations, check_take_profit_levels]
  norm_num
  simp

/-! ### C8 - symbol normalization is not idempotent (counterexample) -/

/-- C8 counterexample: for the input "A/B /C" (code points 65 47 66 32 47 67),
`_normalize_symbol` returns "A/B " (with a trailing space taken from the
middle segment), and applying it again strips that space and returns "A/B":
the function is not idempotent on strings containing whitespace. -/
theorem normalize_symbol_not_idempotent :
    normalize_symbol false [65, 47, 66, 32, 47, 67] = some [65, 47, 66, 32] ∧
    normalize_symbol false [65, 47, 66, 32] = some [65, 47, 66] ∧
    ([65, 47, 66, 32] : List ℕ) ≠ [65, 47, 66] := by
  decide

/-! ### C1 - integer-contract sizing formula -/

/-- C1: on an integer-contract market (amount precision 0, positive contract
size) with a positive price, an effective leverage within the exchange
maximum, and an exchange minimum that does not force a bump,
`convert_amount_to_contracts` returns exactly
`max 1 ⌊usdt * leverage / (price * contractSize)⌋` contracts,
with the trace's raw quantity equal to the un-floored ratio and the notional
and initial margin computed from the ROUNDED quantity; the quantity is an
integer of at least 1. -/
theorem convert_integer_contract_formula (env : ConvertEnv) (usdt price : ℚ)
    (leverage : ℕ) (mi : MarketL) (raw : ℚ) (q : ℤ)
    (hmi : env.marketInfo = some mi)
    (hprec : mi.amountPrecision = 0)
    (hct : 0 < mi.contractSize)
    (hprice : 0 < price)
    (hlev : 1 ≤ leverage)
    (hmax : leverage ≤ getMaxLeverageFromTiers env.tiers)
    (hraw : raw = usdt * (leverage : ℚ) / (price * mi.contractSize))
    (hq : q = max 1 ⌊raw⌋)
    (hminNe : mi.minAmount ≠ 0)
    (hmin : mi.minAmount ≤ (q : ℚ)) :
    convert_amount_to_contracts env usdt price leverage =
      .ok ((q : ℚ),
        { rawQuantity := raw
          formattedQuantity := (q : ℚ)
          initialMargin := (q : ℚ) * price * mi.contractSize / (leverage : ℚ)
          notionalValue := (q : ℚ) * price * mi.contractSize
          price := price
          leverage := leverage }) ∧ 1 ≤ q := by
  subst hraw hq
  have hminlev : min leverage (getMaxLeverageFromTiers env.tiers) = leverage :=
    min_eq_left hmax
  have hctne : ¬ mi.contractSize ≤ 0 := not_le.mpr hct
  have hpc : ¬ price * mi.contractSize = 0 := (mul_pos hprice hct).ne'
  have hlevne : ¬ leverage = 0 := by omega
  have hnotlt : ¬ (mi.minAmount ≠ 0 ∧
      ((max 1 ⌊usdt * (leverage : ℚ) / (price * mi.contractSize)⌋ : ℤ) : ℚ)
        < mi.minAmount) := by
    rintro ⟨-, hlt⟩
    exact absurd hmin (not_le.mpr hlt)
  constructor
  · simp only [convert_amount_to_contracts, hmi, hminlev, hprec, if_pos rfl,
      if_neg hctne, if_neg hpc, if_pos hminNe, if_neg hnotlt, if_neg hlevne]
    exact if_pos trivial
  · exact le_max_left 1 _

/-- C1 witness: the spec scenario - 100 USDT at leverage 10, price 50000,
contract size 0.01, exchange minimum 1 - yields quantity 2, notional 1000,
initial margin 100. -/
theorem convert_integer_contract_formula_witness :
    convert_amount_to_contracts envIC 100 50000 10 =
      .ok (2, ⟨2, 2, 100, 1000, 50000, 10⟩) ∧ (1 : ℤ) ≤ 2 := by
  have h := convert_integer_contract_formula envIC 100 50000 10
    ⟨0, 1/100, 1, some 50000⟩ 2 2 rfl rfl (by norm_num) (by norm_num)
    (by norm_num) (by norm_num [envIC, getMaxLeverageFromTiers])
    (by norm_num) (by norm_num) (by norm_num) (by norm_num)
  refine ⟨?_, by norm_num⟩
  rw [h.1]
  norm_num

/-! ### C3 - leverage clamped to the exchange maximum -/

/-- C3: whenever `set_leverage` returns a value (rather than raising), that
value is `min(requested, max_leverage)` and in particular never exceeds the
exchange's reported maximum leverage tier, on both the OKX path (no remote
call) and the generic path (after the two remote calls succeed). -/
theorem set_leverage_never_exceeds_max (isOKX : Bool) (tiers : Option (List ℕ))
    (requested : ℕ) (r1 r2 : Except String Unit) (v : ℕ)
    (h : set_leverage isOKX tiers requested r1 r2 = .ok v) :
    v = min requested (getMaxLeverageFromTiers tiers) ∧
    v ≤ getMaxLeverageFromTiers tiers := by
  unfold set_leverage at h
  have hle : min requested (getMaxLeverageFromTiers tiers) ≤
      getMaxLeverageFromTiers tiers := min_le_right _ _
  cases isOKX with
  | true =>
    simp only [if_pos rfl] at h
    cases h
    exact ⟨rfl, hle⟩
  | false =>
    simp only [Bool.false_eq_true, if_neg] at h
    cases r1 with
    | error e => simp at h
    | ok u =>
      cases r2 with
      | error e => simp at h
      | ok u2 =>
        simp only [] at h
        cases h
        exact ⟨rfl, hle⟩

/-- C3 witness: requesting leverage 100 when the exchange's maximum tier is
50 yields exactly 50. -/
theorem set_leverage_never_exceeds_max_witness :
    (50 : ℕ) = min 100 (getMaxLeverageFromTiers (some [50])) ∧
    (50 : ℕ) ≤ getMaxLeverageFromTiers (some [50]) :=
  set_leverage_never_exceeds_max true (some [50]) 100 (.ok ()) (.ok ()) 50 rfl

/-! ### C6 (amended) - exactly two partial closes, sized from the size
fetched in each iteration -/

/-- C6 amended: for a long instruction with three unhit TP levels and mark
prices crossing level 1 and then level 2 in two consecutive monitor
iterations (all close orders succeeding), exactly two partial closes fire -
one per iteration - and each is sized to the level's fraction of the
position size FETCHED IN THAT ITERATION (`size1` for the first hit, `size2`
for the second, where `size2` is whatever the exchange reports after the
first partial close), and the first two hit flags end up set. -/
theorem tp_ladder_two_hits (p1 p2 p3 f1 f2 f3 c1 c2 S1 S2 : ℚ)
    (ok1 ok2 : ℕ → Bool)
    (h11 : p1 ≤ c1) (h12 : c1 < p2) (h23 : p2 ≤ c2) (h3 : c2 < p3)
    (hok1 : ∀ i, ok1 i = true) (hok2 : ∀ i, ok2 i = true) :
    two_tp_iterations "OPEN_LONG"
        [⟨p1, f1, false⟩, ⟨p2, f2, false⟩, ⟨p3, f3, false⟩] c1 c2 S1 S2
        ok1 ok2 =
      ([S1 * f1], [S2 * f2],
        [⟨p1, f1, true⟩, ⟨p2, f2, true⟩, ⟨p3, f3, false⟩]) := by
  have hn12 : ¬ p2 ≤ c1 := not_le.mpr h12
  have hn13 : ¬ p3 ≤ c1 := not_le.mpr (lt_of_lt_of_le h12 (h23.trans h3.le))
  have hn23 : ¬ p3 ≤ c2 := not_le.mpr h3
  simp [two_tp_iterations, check_take_profit_levels, hok1, hok2,
    h11, hn12, hn13, h23, hn23]

/-- C6 amended witness: levels (100, 1/2), (110, 1/4), (120, 1/4), prices
105 then 115, fetched sizes 10 then 5: closes of 10*(1/2) and 5*(1/4). -/
theorem tp_ladder_two_hits_witness :
    two_tp_iterations "OPEN_LONG"
        [⟨100, 1/2, false⟩, ⟨110, 1/4, false⟩, ⟨120, 1/4, false⟩]
        105 115 10 5 (fun _ => true) (fun _ => true) =
      ([10 * (1/2)], [5 * (1/4)],
        [⟨100, 1/2, true⟩, ⟨110, 1/4, true⟩, ⟨120, 1/4, false⟩]) :=
  tp_ladder_two_hits 100 110 120 (1/2) (1/4) (1/4) 105 115 10 5
    (fun _ => true) (fun _ => true)
    (by norm_num) (by norm_num) (by norm_num) (by norm_num)
    (fun _ => rfl) (fun _ => rfl)

/-! ### C7 - zero-size positions never appear -/

/-- `from_exchange_position` only succeeds with a strictly positive size:
the amount `contracts or positionAmt or 0` is rejected when zero and the
stored size is its absolute value. -/
theorem from_exchange_position_size_pos (r : RawPos) (p : PositionL)
    (h : from_exchange_position r = some p) : 0 < p.size := by
  unfold from_exchange_position at h
  by_cases h0 : (if r.contracts ≠ 0 then r.contracts else r.positionAmt) = 0
  · rw [if_pos h0] at h
    cases h
  · rw [if_neg h0] at h
    cases h
    simpa [abs_pos] using h0

/-- C7: for every raw exchange positions payload, every `PositionInfo`
produced by the conversion loop of `get_positions` (filter on nonzero
`contracts`, then `from_exchange_position`) has strictly positive size:
zero-size entries are dropped, never returned as zero-value records. -/
theorem get_positions_drops_zero_size (raws : List RawPos) (p : PositionL)
    (hp : p ∈ fetchConvert raws) : 0 < p.size := by
  induction raws with
  | nil => simp [fetchConvert] at hp
  | cons r rs ih =>
    rw [fetchConvert, List.filterMap_cons] at hp
    by_cases hc : r.contracts ≠ 0
    · rw [if_pos hc] at hp
      cases hfe : from_exchange_position r with
      | none => rw [hfe] at hp; exact ih (by rw [fetchConvert]; exact hp)
      | some p0 =>
        rw [hfe] at hp
        rcases List.mem_cons.mp hp with h | h
        · subst h; exact from_exchange_position_size_pos r p hfe
        · exact ih (by rw [fetchConvert]; exact h)
    · rw [if_neg hc] at hp
      exact ih (by rw [fetchConvert]; exact hp)

/-- C7 witness: the conversion of the payload `[rawBTC]` contains `posBTC`,
whose size 2 is positive. -/
theorem get_positions_drops_zero_size_witness : 0 < posBTC.size := by
  refine get_positions_drops_zero_size [rawBTC] posBTC ?_
  simp [fetchConvert, from_exchange_position, rawBTC, posBTC, pyTrunc]
  norm_num

/-! ### C9 - create_order success discipline -/

/-- C9: `create_order` never returns an `OrderResult` with `success=False`:
its single successful return site sets `success=True` and every failure path
raises; and in `execute_signal` (single-entry path) it is the OUTER handler
that converts a raised error into an `OrderResult` with `success=False`. -/
theorem create_order_success_discipline :
    (∀ (env : CreateOrderEnv) (o : OrderParamsL) (r : OrderResultL),
      create_order env o = .ok r → r.success = true) ∧
    (∀ (env : CreateOrderEnv) (sig : SignalL) (e : String),
      create_order env (single_entry_params sig) = .error e →
      (execute_signal_single env sig).success = false) := by
  constructor
  · intro env o r h
    simp only [create_order] at h
    repeat' split at h
    all_goals first
      | exact Except.noConfusion h
      | (injection h with h1; exact h1 ▸ rfl)
  · intro env sig e h
    simp only [execute_signal_single, h]

/-- C9 witness: a fully successful market order returns `success=True`, and
with the market-info lookup failing the raised error is converted by
`execute_signal` into a result with `success=False`. -/
theorem create_order_success_discipline_witness :
    ({ success := true, orderId := some "oid", executedPrice := 100,
       executedAmount := 10, errorMessage := "" } : OrderResultL).success = true ∧
    (execute_signal_single envOrderNoMarket sigSingle).success = false := by
  constructor
  · refine create_order_success_discipline.1 envOrderOk
      (single_entry_params sigSingle) _ ?_
    simp only [create_order, single_entry_params, sigSingle, OrderParamsL.validate,
      truthyQ, envOrderOk, set_leverage, convert_amount_to_contracts,
      getMaxLeverageFromTiers, pyRoundPrec, limit_price_arg]
    norm_num
    intro hc
    exact absurd (hc (by decide) (by decide) (by decide) (by decide) (by decide))
      (by decide)
  · exact create_order_success_discipline.2 envOrderNoMarket sigSingle
      "Cannot get market info"
      (by simp [create_order, single_entry_params, sigSingle, OrderParamsL.validate,
        truthyQ, envOrderNoMarket, envOrderOk])

/-! ### C8 - symbol normalization: totality and idempotence on
whitespace-free inputs -/

lemma pySplit_ne_nil (sep : ℕ) (l : List ℕ) : pySplit sep l ≠ [] := by
  induction l with
  | nil => simp [pySplit]
  | cons c rest ih =>
    simp only [pySplit]
    split
    · simp
    · split
      · simp
      · simp

lemma pySplit_length_of_mem (sep : ℕ) (l : List ℕ) (h : sep ∈ l) :
    2 ≤ (pySplit sep l).length := by
  induction l with
  | nil => simp at h
  | cons c rest ih =>
    simp only [pySplit]
    by_cases hc : c = sep
    · rw [if_pos hc]
      have := pySplit_ne_nil sep rest
      cases hp : pySplit sep rest with
      | nil => exact absurd hp this
      | cons p ps => simp
    · rw [if_neg hc]
      have hmem : sep ∈ rest := by
        rcases List.mem_cons.mp h with h1 | h2
        · exact absurd h1.symm hc
        · exact h2
      have hlen := ih hmem
      cases hp : pySplit sep rest with
      | nil => exact absurd hp (pySplit_ne_nil sep rest)
      | cons p ps =>
        rw [hp] at hlen
        simpa using hlen

lemma not_mem_of_mem_pySplit (sep : ℕ) (l p : List ℕ)
    (hp : p ∈ pySplit sep l) : sep ∉ p := by
  induction l generalizing p with
  | nil =>
    simp [pySplit] at hp
    simp [hp]
  | cons c rest ih =>
    simp only [pySplit] at hp
    by_cases hc : c = sep
    · rw [if_pos hc] at hp
      rcases List.mem_cons.mp hp with h1 | h2
      · simp [h1]
      · exact ih p h2
    · rw [if_neg hc] at hp
      cases heq : pySplit sep rest with
      | nil => exact absurd heq (pySplit_ne_nil sep rest)
      | cons p0 ps =>
        rw [heq] at hp
        rcases List.mem_cons.mp hp with h1 | h2
        · subst h1
          have hp0 : sep ∉ p0 := ih p0 (by rw [heq]; exact List.mem_cons_self p0 ps)
          simp [List.mem_cons, hp0]
          exact fun hx => hc hx.symm
        · exact ih p (by rw [heq]; exact List.mem_cons_of_mem p0 h2)

lemma mem_of_mem_pySplit (sep : ℕ) (l p : List ℕ) (c : ℕ)
    (hp : p ∈ pySplit sep l) (hc : c ∈ p) : c ∈ l := by
  induction l generalizing p with
  | nil =>
    simp [pySplit] at hp
    subst hp
    simp at hc
  | cons x rest ih =>
    simp only [pySplit] at hp
    by_cases hx : x = sep
    · rw [if_pos hx] at hp
      rcases List.mem_cons.mp hp with h1 | h2
      · subst h1; simp at hc
      · exact List.mem_cons_of_mem x (ih p h2 hc)
    · rw [if_neg hx] at hp
      cases heq : pySplit sep rest with
      | nil => exact absurd heq (pySplit_ne_nil sep rest)
      | cons p0 ps =>
        rw [heq] at hp
        rcases List.mem_cons.mp hp with h1 | h2
        · subst h1
          rcases List.mem_cons.mp hc with h3 | h4
          · exact h3 ▸ List.mem_cons_self x rest
          · exact List.mem_cons_of_mem x
              (ih p0 (by rw [heq]; exact List.mem_cons_self p0 ps) h4)
        · exact List.mem_cons_of_mem x
            (ih p (by rw [heq]; exact List.mem_cons_of_mem p0 h2) hc)

lemma pySplit_of_not_mem (sep : ℕ) (l : List ℕ) (h : sep ∉ l) :
    pySplit sep l = [l] := by
  induction l with
  | nil => rfl
  | cons c rest ih =>
    have hc : ¬ c = sep := fun hx => h (hx ▸ List.mem_cons_self c rest)
    have hr : sep ∉ rest := fun hx => h (List.mem_cons_of_mem c hx)
    simp only [pySplit, if_neg hc, ih hr]

lemma pySplit_append (sep : ℕ) (b rest : List ℕ) (hb : sep ∉ b) :
    pySplit sep (b ++ sep :: rest) = b :: pySplit sep rest := by
  induction b with
  | nil => simp [pySplit]
  | cons x xs ih =>
    have hx : ¬ x = sep := fun h => hb (h ▸ List.mem_cons_self x xs)
    have hxs : sep ∉ xs := fun h => hb (List.mem_cons_of_mem x h)
    simp only [List.cons_append, pySplit, if_neg hx, List.append_eq, ih hxs]

lemma pySplit_pair (sep : ℕ) (b q : List ℕ) (hb : sep ∉ b) (hq : sep ∉ q) :
    pySplit sep (b ++ sep :: q) = [b, q] := by
  rw [pySplit_append sep b q hb, pySplit_of_not_mem sep q hq]

lemma mem_removeUSDT (l : List ℕ) (c : ℕ) (h : c ∈ removeUSDT l) : c ∈ l := by
  induction l using removeUSDT.induct with
  | case1 rest ih =>
    rw [removeUSDT] at h
    exact List.mem_cons_of_mem _ (List.mem_cons_of_mem _
      (List.mem_cons_of_mem _ (List.mem_cons_of_mem _ (ih h))))
  | case2 x rest hne ih =>
    rw [removeUSDT] at h
    · rcases List.mem_cons.mp h with h1 | h2
      · exact h1 ▸ List.mem_cons_self x rest
      · exact List.mem_cons_of_mem x (ih h2)
    · exact hne
  | case3 =>
    simp [removeUSDT] at h

lemma isPrefN_append_self (pat suf : List ℕ) : isPrefN pat (pat ++ suf) = true := by
  induction pat with
  | nil => rfl
  | cons a as ih => simp [isPrefN, ih]

lemma hasInfixN_of_isPrefN (pat l : List ℕ) (h : isPrefN pat l = true) :
    hasInfixN pat l = true := by
  cases l with
  | nil => simpa [hasInfixN] using h
  | cons c r => simp [hasInfixN, h]

lemma hasInfixN_append_pat (pat pre suf : List ℕ) :
    hasInfixN pat (pre ++ (pat ++ suf)) = true := by
  induction pre with
  | nil => exact hasInfixN_of_isPrefN pat (pat ++ suf) (isPrefN_append_self pat suf)
  | cons c pre1 ih => simp [hasInfixN, ih]

lemma pyUpperCh_not_lower (c : ℕ) : ¬(97 ≤ pyUpperCh c ∧ pyUpperCh c ≤ 122) := by
  unfold pyUpperCh
  split
  · omega
  · omega

lemma pyUpper_eq_self (l : List ℕ) (h : ∀ c ∈ l, ¬(97 ≤ c ∧ c ≤ 122)) :
    pyUpper l = l := by
  induction l with
  | nil => rfl
  | cons c rest ih =>
    have hc : pyUpperCh c = c := by
      unfold pyUpperCh
      rw [if_neg (h c (List.mem_cons_self c rest))]
    simp only [pyUpper, List.map_cons, hc]
    have := ih (fun x hx => h x (List.mem_cons_of_mem c hx))
    simpa [pyUpper] using this

lemma mem_pyUpper_not_lower (l : List ℕ) (c : ℕ) (h : c ∈ pyUpper l) :
    ¬(97 ≤ c ∧ c ≤ 122) := by
  obtain ⟨a, _, rfl⟩ := List.mem_map.mp h
  exact pyUpperCh_not_lower a

lemma pyUpperCh_not_space (c : ℕ) (h : pyIsSpace c = false) :
    pyIsSpace (pyUpperCh c) = false := by
  simp only [pyIsSpace, Bool.or_eq_false_iff, decide_eq_false_iff_not] at h ⊢
  unfold pyUpperCh
  split
  · omega
  · omega

lemma dropWhile_eq_self_of (p : ℕ → Bool) (l : List ℕ)
    (h : ∀ c ∈ l, p c = false) : l.dropWhile p = l := by
  cases l with
  | nil => rfl
  | cons c rest =>
    rw [List.dropWhile_cons, h c (List.mem_cons_self c rest)]
    simp

lemma pyStrip_eq_self (l : List ℕ) (h : ∀ c ∈ l, pyIsSpace c = false) :
    pyStrip l = l := by
  unfold pyStrip
  rw [dropWhile_eq_self_of pyIsSpace l h]
  rw [dropWhile_eq_self_of pyIsSpace l.reverse
    (fun c hc => h c (List.mem_reverse.mp hc))]
  exact List.reverse_reverse l

lemma colonUsdt_not_space : ∀ c ∈ colonUsdtL, pyIsSpace c = false := by decide

lemma colonUsdt_not_lower : ∀ c ∈ colonUsdtL, ¬(97 ≤ c ∧ c ≤ 122) := by decide

lemma usdt_not_space : ∀ c ∈ usdtL, pyIsSpace c = false := by decide

lemma usdt_not_lower : ∀ c ∈ usdtL, ¬(97 ≤ c ∧ c ≤ 122) := by decide

lemma usdt_not_mem_47 : (47 : ℕ) ∉ usdtL := by decide

lemma normalize_symbol_isSome (isOKX : Bool) (sym : List ℕ) :
    ∃ t, normalize_symbol isOKX sym = some t := by
  simp only [normalize_symbol]
  by_cases h1 : pyStrip (pyUpper sym) = []
  · rw [if_pos h1]; exact ⟨_, rfl⟩
  rw [if_neg h1]
  by_cases h2 : 47 ∈ pyStrip (pyUpper sym) ∧
      hasInfixN colonUsdtL (pyStrip (pyUpper sym)) = true
  · rw [if_pos h2]; exact ⟨_, rfl⟩
  rw [if_neg h2]
  by_cases h3 : 47 ∈ pyStrip (pyUpper sym)
  · rw [if_pos h3]
    have hlen := pySplit_length_of_mem 47 (pyStrip (pyUpper sym)) h3
    obtain ⟨a, b, rest, hab⟩ : ∃ a b rest,
        pySplit 47 (pyStrip (pyUpper sym)) = a :: b :: rest := by
      cases hp : pySplit 47 (pyStrip (pyUpper sym)) with
      | nil => exact absurd hp (pySplit_ne_nil 47 _)
      | cons a tl =>
        cases tl with
        | nil => rw [hp] at hlen; simp at hlen
        | cons b rest => exact ⟨a, b, rest, rfl⟩
    rw [hab]
    exact ⟨_, rfl⟩
  rw [if_neg h3]
  by_cases h4 : 45 ∈ pyStrip (pyUpper sym)
  · rw [if_pos h4]
    obtain ⟨a, tl, hab⟩ : ∃ a tl, pySplit 45 (pyStrip (pyUpper sym)) = a :: tl := by
      cases hp : pySplit 45 (pyStrip (pyUpper sym)) with
      | nil => exact absurd hp (pySplit_ne_nil 45 _)
      | cons a tl => exact ⟨a, tl, rfl⟩
    rw [hab]
    exact ⟨_, rfl⟩
  · rw [if_neg h4]
    exact ⟨_, rfl⟩

lemma normalize_symbol_fixed (isOKX : Bool) (t : List ℕ)
    (hns : ∀ c ∈ t, pyIsSpace c = false)
    (hnl : ∀ c ∈ t, ¬(97 ≤ c ∧ c ≤ 122))
    (hshape : t = [] ∨ (47 ∈ t ∧ hasInfixN colonUsdtL t = true) ∨
      (isOKX = false ∧ ∃ b q, t = b ++ 47 :: q ∧ 47 ∉ b ∧ 47 ∉ q)) :
    normalize_symbol isOKX t = some t := by
  have hup : pyUpper t = t := pyUpper_eq_self t hnl
  have hst : pyStrip t = t := pyStrip_eq_self t hns
  simp only [normalize_symbol, hup, hst]
  rcases hshape with h0 | ⟨h47, hCU⟩ | ⟨hOKX, b, q, ht, hb, hq⟩
  · rw [if_pos h0, h0]
  · rw [if_neg (List.ne_nil_of_mem h47), if_pos ⟨h47, hCU⟩]
  · have h47 : 47 ∈ t := ht ▸ List.mem_append_right b (List.mem_cons_self 47 q)
    rw [if_neg (List.ne_nil_of_mem h47)]
    by_cases hCU : hasInfixN colonUsdtL t = true
    · rw [if_pos ⟨h47, hCU⟩]
    · rw [if_neg (fun hx => hCU hx.2)]
      rw [if_pos h47]
      have hsplit : pySplit 47 t = [b, q] := by
        rw [ht]; exact pySplit_pair 47 b q hb hq
      rw [hsplit]
      simp only [List.get?, hOKX, if_neg]
      rw [ht]
      simp

lemma normalize_symbol_fixed_of_parts (isOKX : Bool) (b q : List ℕ)
    (hbns : ∀ c ∈ b, pyIsSpace c = false)
    (hbnl : ∀ c ∈ b, ¬(97 ≤ c ∧ c ≤ 122))
    (hqns : ∀ c ∈ q, pyIsSpace c = false)
    (hqnl : ∀ c ∈ q, ¬(97 ≤ c ∧ c ≤ 122))
    (hb47 : 47 ∉ b) (hq47 : 47 ∉ q) :
    normalize_symbol isOKX
        (if isOKX then b ++ 47 :: (q ++ colonUsdtL) else b ++ 47 :: q) =
      some (if isOKX then b ++ 47 :: (q ++ colonUsdtL) else b ++ 47 :: q) := by
  cases isOKX with
  | false =>
    simp only [Bool.false_eq_true, if_false]
    refine normalize_symbol_fixed false (b ++ 47 :: q) ?_ ?_
      (Or.inr (Or.inr ⟨rfl, b, q, rfl, hb47, hq47⟩))
    · intro c hc
      rcases List.mem_append.mp hc with h1 | h2
      · exact hbns c h1
      · rcases List.mem_cons.mp h2 with h3 | h4
        · subst h3; decide
        · exact hqns c h4
    · intro c hc
      rcases List.mem_append.mp hc with h1 | h2
      · exact hbnl c h1
      · rcases List.mem_cons.mp h2 with h3 | h4
        · subst h3; decide
        · exact hqnl c h4
  | true =>
    simp only [if_true]
    have hshape2 : 47 ∈ b ++ 47 :: (q ++ colonUsdtL) ∧
        hasInfixN colonUsdtL (b ++ 47 :: (q ++ colonUsdtL)) = true := by
      constructor
      · exact List.mem_append_right b (List.mem_cons_self 47 _)
      · have harr : b ++ 47 :: (q ++ colonUsdtL) =
            (b ++ 47 :: q) ++ (colonUsdtL ++ []) := by simp
        rw [harr]
        exact hasInfixN_append_pat colonUsdtL (b ++ 47 :: q) []
    refine normalize_symbol_fixed true (b ++ 47 :: (q ++ colonUsdtL)) ?_ ?_
      (Or.inr (Or.inl hshape2))
    · intro c hc
      rcases List.mem_append.mp hc with h1 | h2
      · exact hbns c h1
      · rcases List.mem_cons.mp h2 with h3 | h4
        · subst h3; decide
        · rcases List.mem_append.mp h4 with h5 | h6
          · exact hqns c h5
          · exact colonUsdt_not_space c h6
    · intro c hc
      rcases List.mem_append.mp hc with h1 | h2
      · exact hbnl c h1
      · rcases List.mem_cons.mp h2 with h3 | h4
        · subst h3; decide
        · rcases List.mem_append.mp h4 with h5 | h6
          · exact hqnl c h5
          · exact colonUsdt_not_lower c h6

/-- C8 amended: `_normalize_symbol` is total - the unguarded Python
indexing `s.split("/")[1]` is always in range, so the function never raises
on any input - and it is idempotent on every input containing no whitespace
character (idempotence fails in general: see the counterexample above, where
an interior whitespace survives into the output and is stripped only by the
second application). -/
theorem normalize_symbol_total_and_spaceless_idem (isOKX : Bool) (sym : List ℕ) :
    (normalize_symbol isOKX sym).isSome = true ∧
    ((∀ c ∈ sym, pyIsSpace c = false) → ∀ t,
      normalize_symbol isOKX sym = some t →
        normalize_symbol isOKX t = some t) := by
  constructor
  · obtain ⟨t, ht⟩ := normalize_symbol_isSome isOKX sym
    rw [ht]; rfl
  · intro H t ht
    have hUs : ∀ c ∈ pyUpper sym, pyIsSpace c = false := by
      intro c hc
      obtain ⟨a, ha, rfl⟩ := List.mem_map.mp hc
      exact pyUpperCh_not_space a (H a ha)
    have hUl : ∀ c ∈ pyUpper sym, ¬(97 ≤ c ∧ c ≤ 122) :=
      fun c hc => mem_pyUpper_not_lower sym c hc
    have hstrip : pyStrip (pyUpper sym) = pyUpper sym := pyStrip_eq_self _ hUs
    simp only [normalize_symbol, hstrip] at ht
    by_cases h1 : pyUpper sym = []
    · rw [if_pos h1] at ht
      injection ht with ht1
      subst ht1
      exact normalize_symbol_fixed isOKX _ hUs hUl (Or.inl h1)
    rw [if_neg h1] at ht
    by_cases h2 : 47 ∈ pyUpper sym ∧ hasInfixN colonUsdtL (pyUpper sym) = true
    · rw [if_pos h2] at ht
      injection ht with ht1
      subst ht1
      exact normalize_symbol_fixed isOKX _ hUs hUl (Or.inr (Or.inl h2))
    rw [if_neg h2] at ht
    by_cases h3 : 47 ∈ pyUpper sym
    · rw [if_pos h3] at ht
      have hlen := pySplit_length_of_mem 47 _ h3
      obtain ⟨a, b, rest, hab⟩ : ∃ a b rest,
          pySplit 47 (pyUpper sym) = a :: b :: rest := by
        cases hp : pySplit 47 (pyUpper sym) with
        | nil => exact absurd hp (pySplit_ne_nil 47 _)
        | cons a tl =>
          cases tl with
          | nil => rw [hp] at hlen; simp at hlen
          | cons b rest => exact ⟨a, b, rest, rfl⟩
      rw [hab] at ht
      simp only [List.get?] at ht
      injection ht with ht1
      subst ht1
      have hamem : a ∈ pySplit 47 (pyUpper sym) := by
        rw [hab]; exact List.mem_cons_self _ _
      have hbmem : b ∈ pySplit 47 (pyUpper sym) := by
        rw [hab]; exact List.mem_cons_of_mem _ (List.mem_cons_self _ _)
      exact normalize_symbol_fixed_of_parts isOKX a b
        (fun c hc => hUs c (mem_of_mem_pySplit 47 _ a c hamem hc))
        (fun c hc => hUl c (mem_of_mem_pySplit 47 _ a c hamem hc))
        (fun c hc => hUs c (mem_of_mem_pySplit 47 _ b c hbmem hc))
        (fun c hc => hUl c (mem_of_mem_pySplit 47 _ b c hbmem hc))
        (not_mem_of_mem_pySplit 47 _ a hamem)
        (not_mem_of_mem_pySplit 47 _ b hbmem)
    rw [if_neg h3] at ht
    by_cases h4 : 45 ∈ pyUpper sym
    · rw [if_pos h4] at ht
      obtain ⟨a, tl, hab⟩ : ∃ a tl, pySplit 45 (pyUpper sym) = a :: tl := by
        cases hp : pySplit 45 (pyUpper sym) with
        | nil => exact absurd hp (pySplit_ne_nil 45 _)
        | cons a tl => exact ⟨a, tl, rfl⟩
      rw [hab] at ht
      simp only [List.get?] at ht
      have hamem : a ∈ pySplit 45 (pyUpper sym) := by
        rw [hab]; exact List.mem_cons_self _ _
      have haSub : ∀ c ∈ a, c ∈ pyUpper sym :=
        fun c hc => mem_of_mem_pySplit 45 _ a c hamem hc
      have ha47 : 47 ∉ a := fun hc => h3 (haSub 47 hc)
      set Q : List ℕ :=
        if 1 < (a :: tl).length then (a :: tl).getD 1 [] else usdtL with hQdef
      have hQprops : (∀ c ∈ Q, pyIsSpace c = false) ∧
          (∀ c ∈ Q, ¬(97 ≤ c ∧ c ≤ 122)) ∧ 47 ∉ Q := by
        rw [hQdef]
        by_cases hl : 1 < (a :: tl).length
        · rw [if_pos hl]
          cases tl with
          | nil => simp at hl
          | cons b rest =>
            have hbmem : b ∈ pySplit 45 (pyUpper sym) := by
              rw [hab]; exact List.mem_cons_of_mem _ (List.mem_cons_self _ _)
            have hbSub : ∀ c ∈ b, c ∈ pyUpper sym :=
              fun c hc => mem_of_mem_pySplit 45 _ b c hbmem hc
            simp only [List.getD, List.get?, Option.getD]
            exact ⟨fun c hc => hUs c (hbSub c hc),
              fun c hc => hUl c (hbSub c hc),
              fun hc => h3 (hbSub 47 hc)⟩
        · rw [if_neg hl]
          exact ⟨usdt_not_space, usdt_not_lower, usdt_not_mem_47⟩
      injection ht with ht1
      subst ht1
      exact normalize_symbol_fixed_of_parts isOKX a Q
        (fun c hc => hUs c (haSub c hc))
        (fun c hc => hUl c (haSub c hc))
        hQprops.1 hQprops.2.1 ha47 hQprops.2.2
    · rw [if_neg h4] at ht
      injection ht with ht1
      subst ht1
      have haSub : ∀ c ∈ removeUSDT (pyUpper sym), c ∈ pyUpper sym :=
        fun c hc => mem_removeUSDT _ c hc
      exact normalize_symbol_fixed_of_parts isOKX (removeUSDT (pyUpper sym)) usdtL
        (fun c hc => hUs c (haSub c hc))
        (fun c hc => hUl c (haSub c hc))
        usdt_not_space usdt_not_lower
        (fun hc => h3 (haSub 47 hc)) usdt_not_mem_47

/-- C8 witness: applied to "BTC" (no whitespace), normalization returns
"BTC/USDT", and a second application leaves "BTC/USDT" unchanged. -/
theorem normalize_symbol_total_and_spaceless_idem_witness :
    (normalize_symbol false [66, 84, 67]).isSome = true ∧
    normalize_symbol false [66, 84, 67, 47, 85, 83, 68, 84] =
      some [66, 84, 67, 47, 85, 83, 68, 84] :=
  ⟨(normalize_symbol_total_and_spaceless_idem false [66, 84, 67]).1,
   (normalize_symbol_total_and_spaceless_idem false [66, 84, 67]).2
     (by decide) [66, 84, 67, 47, 85, 83, 68, 84] (by decide)⟩


end CryptoBot
